import Mathlib

set_option autoImplicit false

/-!
Verification of the ingestion pipeline of the Python-RAG-console repository.

The Python sources are shallowly embedded: strings are `List Char`, the
line-oriented operations (`str.splitlines`, `str.strip`, the two regexes of
the block splitter) are translated function by function, stateful services
pass their store explicitly, and fallible calls return `Except`.
-/

namespace RagConsole

/-! ### Python text primitives -/

/-- Whitespace characters stripped by Python `str.strip()` (ASCII part). -/
def isPySpace (c : Char) : Bool :=
  c = ' ' || c = '\t' || c = '\n' || c = '\r' || c = '\x0B' || c = '\x0C'

/-- Python `str.strip()`: drop leading and trailing whitespace. -/
def pyStrip (s : List Char) : List Char :=
  ((s.dropWhile isPySpace).reverse.dropWhile isPySpace).reverse

/-- Line-boundary characters of Python `str.splitlines()`: `\n`, `\r`,
`\v`, `\f`, the file/group/record separators `\x1C`–`\x1E`, NEL `\x85`,
and the Unicode line and paragraph separators.  A `\r` immediately
followed by `\n` counts as a single break (handled in the worker). -/
def isLineSep (c : Char) : Bool :=
  c = '\n' || c = '\r' || c = '\x0B' || c = '\x0C' ||
  c = '\x1C' || c = '\x1D' || c = '\x1E' || c = '\x85' ||
  c = '\u2028' || c = '\u2029'

/-- Worker for `splitlines`: `cur` is the line accumulated so far.  When a
single character remains, a separator ends the line with nothing after it
and a plain character joins it and the scan flushes, so the two outcomes
of the final iteration are written directly. -/
def splitlinesGo : List Char → List Char → List (List Char)
  | [], cur => if cur.isEmpty then [] else [cur]
  | [c], cur => if isLineSep c then [cur] else [cur ++ [c]]
  | c :: d :: rest, cur =>
    if isLineSep c then
      if c = '\r' && d = '\n' then cur :: splitlinesGo rest []
      else cur :: splitlinesGo (d :: rest) []
    else splitlinesGo (d :: rest) (cur ++ [c])

/-- Python `str.splitlines()`: split at every line boundary (`\r\n` being
one boundary), with no trailing empty line for a trailing separator. -/
def splitlines (s : List Char) : List (List Char) :=
  splitlinesGo s []

/-- The input with every line separator replaced by a single `\n`
(`\r\n` counting as one separator): the exact normalization the
splitlines-then-join round trip performs on line boundaries. -/
def normalizeSeps : List Char → List Char
  | [] => []
  | [c] => if isLineSep c then ['\n'] else [c]
  | c :: d :: rest =>
    if isLineSep c then
      if c = '\r' && d = '\n' then '\n' :: normalizeSeps rest
      else '\n' :: normalizeSeps (d :: rest)
    else c :: normalizeSeps (d :: rest)

/-- Python `"\n".join(lines)`. -/
def joinNL : List (List Char) → List Char
  | [] => []
  | [l] => l
  | l :: rest => l ++ '\n' :: joinNL rest

/-- Drop a single trailing newline, if present. -/
def stripTrailingNL (cs : List Char) : List Char :=
  if cs.getLast? = some '\n' then cs.dropLast else cs

/-! ### The two regexes of `DoclingPDFLoader._split_into_blocks` -/

/-- Regex `\s+`: one or more whitespace characters; returns the rest on success. -/
def matchSpaces1 : List Char → Option (List Char)
  | c :: rest => if isPySpace c then some (rest.dropWhile isPySpace) else none
  | [] => none

/-- Regex `\d+`: one or more decimal digits; returns the rest on success. -/
def matchDigits1 : List Char → Option (List Char)
  | c :: rest => if c.isDigit then some (rest.dropWhile Char.isDigit) else none
  | [] => none

/-- Python `re.match(r'^Table\s+\d+[:\.]', s, re.IGNORECASE)` as a Boolean:
the word `Table` (any case), whitespace, digits, then `:` or `.`. -/
def tableTitleMatch (s : List Char) : Bool :=
  match s with
  | a :: b :: c :: d :: e :: rest =>
    a.toLower = 't' && b.toLower = 'a' && c.toLower = 'b' &&
    d.toLower = 'l' && e.toLower = 'e' &&
    (match matchSpaces1 rest with
     | some r1 =>
       match matchDigits1 r1 with
       | some r2 =>
         match r2 with
         | x :: _ => x = ':' || x = '.'
         | [] => false
       | none => false
     | none => false)
  | _ => false

/-- Python `re.match(r'^\|.*\|$', s)`: at least two characters, the first and the
last both `|` (`.` never has to cross a newline because `s` is one line). -/
def tableRowMatch : List Char → Bool
  | '|' :: rest => !rest.isEmpty && rest.getLast? = some '|'
  | _ => false

/-! ### `DoclingPDFLoader._split_into_blocks` -/

inductive BlockType where
  | table
  | text
deriving DecidableEq, Repr

structure Block where
  type : BlockType
  content : List Char
deriving DecidableEq, Repr

/-- Python `if text_accum: blocks.append({"type": "text", ...})`. -/
def flushText (accum : List (List Char)) : List Block :=
  if accum.isEmpty then [] else [⟨BlockType.text, joinNL accum⟩]

/-- The `while i < len(lines)` loop of `_split_into_blocks`, with the
text accumulator made explicit.  A line whose stripped form matches the
table-title pattern is combined, when the immediately next line is a table
row, with all immediately following table-row lines into one TABLE block
(flushing the pending text first); otherwise it is accumulated as text. -/
def splitIntoBlocksGo : List (List Char) → List (List Char) → List Block
  | [], accum => flushText accum
  | [l], accum =>
    -- `i + 1 < len(lines)` fails, so with or without a title match the last
    -- line joins the accumulator, which the loop exit then flushes.
    flushText (accum ++ [l])
  | l :: next :: rest, accum =>
    if tableTitleMatch (pyStrip l) then
      if tableRowMatch (pyStrip next) then
        flushText accum
          ++ [⟨BlockType.table,
               joinNL (l :: (next :: rest).takeWhile (fun x => tableRowMatch (pyStrip x)))⟩]
          ++ splitIntoBlocksGo ((next :: rest).dropWhile (fun x => tableRowMatch (pyStrip x))) []
      else
        splitIntoBlocksGo (next :: rest) (accum ++ [l])
    else
      splitIntoBlocksGo (next :: rest) (accum ++ [l])
termination_by lines _ => lines.length
decreasing_by
  · have h : ((next :: rest).dropWhile (fun x => tableRowMatch (pyStrip x))).length ≤
        (next :: rest).length :=
      List.Sublist.length_le (List.dropWhile_sublist _)
    simp only [List.length_cons] at h ⊢
    omega
  · simp only [List.length_cons]; omega
  · simp only [List.length_cons]; omega

/-- Embeds `DoclingPDFLoader._split_into_blocks(content)`. -/
def splitIntoBlocks (content : List Char) : List Block :=
  splitIntoBlocksGo (splitlines content) []

/-! ### Embedded Python exceptions -/

inductive PyErr where
  | typeError
  | attributeError
  | providerError
  | storeError
deriving DecidableEq, Repr

instance exceptDecEq {ε α : Type} [DecidableEq ε] [DecidableEq α] :
    DecidableEq (Except ε α) := fun x y =>
  match x, y with
  | .ok a, .ok b =>
    if h : a = b then .isTrue (by rw [h]) else .isFalse (fun hc => by cases hc; exact h rfl)
  | .error a, .error b =>
    if h : a = b then .isTrue (by rw [h]) else .isFalse (fun hc => by cases hc; exact h rfl)
  | .ok _, .error _ => .isFalse (fun hc => by cases hc)
  | .error _, .ok _ => .isFalse (fun hc => by cases hc)

/-! ### `DoclingPDFLoader._process_content`

The two langchain splitters are external collaborators and enter as
function parameters: `hs` for `MarkdownHeaderTextSplitter(...).split_text`
(fallible) and `ts` for
`MarkdownTextSplitter(chunk_size=2000, chunk_overlap=200).split_text`. -/

/-- One document returned by the header splitter: its `page_content` and
the `metadata.get("Header i", "")` values. -/
structure HDoc where
  page_content : List Char
  header_1 : String := ""
  header_2 : String := ""
  header_3 : String := ""
deriving DecidableEq, Repr

/-- One chunk dictionary built by `_process_content`. -/
structure DChunk where
  ctype : String
  content : List Char
  table_title : List Char := []
  offset : Nat
  is_chart : Bool := false
  chunk_index : String
  header_1 : String := ""
  header_2 : String := ""
  header_3 : String := ""
deriving DecidableEq, Repr

/-- Python `lines[0].strip() if lines and re.match(r'^Table\s+\d+[:\.]', lines[0].strip(), re.IGNORECASE) else ""`. -/
def tableTitleOf (blockContent : List Char) : List Char :=
  match splitlines blockContent with
  | fl :: _ => if tableTitleMatch (pyStrip fl) then pyStrip fl else []
  | [] => []

/-- A `'type': 'text'` chunk as appended by `_process_content`. -/
def mkTextChunk (c : List Char) (offset : Nat) (idx : String) (doc : HDoc) : DChunk :=
  { ctype := "text", content := c, offset := offset, chunk_index := idx,
    header_1 := doc.header_1, header_2 := doc.header_2, header_3 := doc.header_3 }

/-- The inner `for sub_chunk in sub_chunks` loop: each sub-chunk is appended
with `chunk_index = f"{len(chunks)}"` and advances the offset. -/
def appendSubChunks (doc : HDoc) : List (List Char) → List DChunk → Nat → List DChunk × Nat
  | [], chunks, offset => (chunks, offset)
  | sc :: rest, chunks, offset =>
    appendSubChunks doc rest
      (chunks ++ [mkTextChunk sc offset (Nat.repr chunks.length) doc])
      (offset + sc.length)

/-- The `for doc in header_splits` loop: documents longer than 2000 go
through the secondary splitter `ts`, the others become one chunk. -/
def processDocs (ts : List Char → List (List Char)) :
    List HDoc → List DChunk → Nat → List DChunk × Nat
  | [], chunks, offset => (chunks, offset)
  | doc :: rest, chunks, offset =>
    if doc.page_content.length > 2000 then
      let r := appendSubChunks doc (ts doc.page_content) chunks offset
      processDocs ts rest r.1 r.2
    else
      processDocs ts rest
        (chunks ++ [mkTextChunk doc.page_content offset (Nat.repr chunks.length) doc])
        (offset + doc.page_content.length)

/-- The `for block in blocks` loop of `_process_content`.  A table block is
one chunk; a text block goes through the header splitter, whose exception
(if any) propagates out of `_process_content` unhandled. -/
def processContentGo (hs : List Char → Except PyErr (List HDoc))
    (ts : List Char → List (List Char)) :
    List Block → List DChunk → Nat → Except PyErr (List DChunk)
  | [], chunks, _ => .ok chunks
  | b :: rest, chunks, offset =>
    match b.type with
    | .table =>
      processContentGo hs ts rest
        (chunks ++ [{ ctype := "table", content := b.content,
                      table_title := tableTitleOf b.content, offset := offset,
                      is_chart := true, chunk_index := Nat.repr chunks.length }])
        (offset + b.content.length)
    | .text =>
      match hs b.content with
      | .error e => .error e
      | .ok docs =>
        let r := processDocs ts docs chunks offset
        processContentGo hs ts rest r.1 r.2

/-- Embeds `DoclingPDFLoader._process_content(content)`. -/
def processContent (hs : List Char → Except PyErr (List HDoc))
    (ts : List Char → List (List Char)) (content : List Char) :
    Except PyErr (List DChunk) :=
  processContentGo hs ts (splitIntoBlocks content) [] 0

/-- Python `text.split('\n\n')`, left to right, non-overlapping. -/
def splitOnNNGo : List Char → List Char → List (List Char)
  | [], cur => [cur]
  | '\n' :: '\n' :: rest, cur => cur :: splitOnNNGo rest []
  | c :: rest, cur => splitOnNNGo rest (cur ++ [c])

/-- The `for paragraph in text.split('\n\n')` loop of `_fallback_split`. -/
def fallbackSplitGo (maxLength : Nat) :
    List (List Char) → List (List Char) → List Char → List (List Char)
  | [], chunks, cur => if cur.isEmpty then chunks else chunks ++ [pyStrip cur]
  | p :: rest, chunks, cur =>
    if cur.length + p.length < maxLength then
      fallbackSplitGo maxLength rest chunks (cur ++ p ++ ['\n', '\n'])
    else
      fallbackSplitGo maxLength rest
        (if cur.isEmpty then chunks else chunks ++ [pyStrip cur])
        (p ++ ['\n', '\n'])

/-- Embeds `DoclingPDFLoader._fallback_split(text, max_length)`.  Present in the
source but never called: no method of the loader (in particular not
`_process_content`) and no other module invokes it. -/
def fallbackSplit (text : List Char) (maxLength : Nat) : List (List Char) :=
  fallbackSplitGo maxLength (splitOnNNGo text []) [] []

/-! ### The `ParagraphChunk` dataclass and `PDFParser.parse_pdf` -/

/-- Field names of the `ParagraphChunk` dataclass (src/models/chunk.py). -/
def paragraphChunkFields : List String :=
  ["document_id", "checksum", "is_chart", "page_number",
   "paragraph_or_chart_index", "text_content", "embedding_model", "embedding"]

/-- Fields of `ParagraphChunk` without a default value. -/
def paragraphChunkRequiredFields : List String :=
  ["document_id", "checksum", "is_chart", "page_number",
   "paragraph_or_chart_index", "text_content", "embedding_model"]

/-- CPython call semantics of the dataclass-generated `__init__` at the
keyword level: `TypeError` on an unexpected keyword argument or on a
missing required field. -/
def mkParagraphChunkKw (kwargs : List String) : Except PyErr Unit :=
  if kwargs.any (fun k => !paragraphChunkFields.contains k) then
    .error .typeError
  else if paragraphChunkRequiredFields.any (fun f => !kwargs.contains f) then
    .error .typeError
  else
    .ok ()

/-- The keyword arguments `PDFParser.parse_pdf` passes when constructing
the page-text chunk. -/
def parsePdfTextKwargs : List String :=
  ["document_id", "documentChecksum", "is_chart", "page_number",
   "paragraph_or_chart_index", "text_content", "embedding_model", "pdf_loader"]

/-- The keyword arguments for the per-image chunks (the same names). -/
def parsePdfImageKwargs : List String := parsePdfTextKwargs

/-- A page as returned by a loader's `load`: its `number`, `text`, and the
length of its `images` list (`parse_pdf` only uses the image index). -/
structure LoaderPage where
  number : Nat
  text : List Char
  images : Nat
deriving DecidableEq, Repr

/-- The `for idx, img in enumerate(page.get('images', []))` loop of
`parse_pdf`: one constructor call per image. -/
def parsePdfImagesLoop : Nat → Except PyErr (List Unit)
  | 0 => .ok []
  | n + 1 =>
    match mkParagraphChunkKw parsePdfImageKwargs with
    | .error e => .error e
    | .ok _ => (parsePdfImagesLoop n).map (fun t => () :: t)

/-- The `for page in doc_data['pages']` loop of `PDFParser.parse_pdf`: per
page one text-chunk construction then the image loop; a `TypeError` from a
constructor call propagates before any chunk list is returned. -/
def parsePdfPages : List LoaderPage → Except PyErr (List Unit)
  | [] => .ok []
  | p :: rest =>
    match mkParagraphChunkKw parsePdfTextKwargs with
    | .error e => .error e
    | .ok _ =>
      match parsePdfImagesLoop p.images with
      | .error e => .error e
      | .ok imgs =>
        (parsePdfPages rest).map (fun t => () :: imgs ++ t)

/-- The `paragraph_or_chart_index` values `parse_pdf` computes for the
chunks of a document, in order: `f"p{page['number']}"` for the page-text
chunk and `f"chart-{idx}"` for each image of the page. -/
def parsePdfIndexes (pages : List LoaderPage) : List String :=
  pages.flatMap (fun p =>
    ("p" ++ Nat.repr p.number) ::
      (List.range p.images).map (fun idx => "chart-" ++ Nat.repr idx))

/-! ### `IndexingService` against an explicit store state -/

/-- Attribute names `index_chunks` reads off each chunk when building the
bulk body, in source order. -/
def indexChunksAttrsRead : List String :=
  ["title", "documentChecksum", "is_chart", "page_number",
   "paragraph_or_chart_index", "text_content", "embedding_model",
   "embedding", "pdf_loader"]

/-- CPython attribute lookup on a well-formed `ParagraphChunk` instance:
`AttributeError` unless the name is a dataclass field. -/
def getattrParagraphChunk (name : String) : Except PyErr Unit :=
  if paragraphChunkFields.contains name then .ok () else .error .attributeError

/-- Building one bulk-body document in `index_chunks` reads every name in
`indexChunksAttrsRead`; the first failing lookup raises. -/
def indexChunksBuildDoc : List String → Except PyErr Unit
  | [] => .ok ()
  | a :: rest =>
    match getattrParagraphChunk a with
    | .error e => .error e
    | .ok _ => indexChunksBuildDoc rest

/-- A record as written by `index_chunks` into the index: exactly the nine
fields of the bulk body.  There is no `document_id` field. -/
structure IndexedDoc where
  title : String
  documentChecksum : String
  is_chart : Bool
  page_number : Nat
  paragraph_or_chart_index : String
  text_content : List Char
  embedding_model : String
  embedding : List Int
  pdf_loader : String
deriving DecidableEq, Repr

/-- The keyword-typed fields of an `IndexedDoc` by name; `none` for a name
that is not a field of the record (such as `"document_id"`). -/
def IndexedDoc.keywordField (d : IndexedDoc) : String → Option String
  | "title" => some d.title
  | "documentChecksum" => some d.documentChecksum
  | "paragraph_or_chart_index" => some d.paragraph_or_chart_index
  | "embedding_model" => some d.embedding_model
  | "pdf_loader" => some d.pdf_loader
  | _ => none

/-- OpenSearch `terms` query semantics: a document matches iff it has the
named field and its value is among the given values. -/
def termsMatches (field : String) (vals : List String) (d : IndexedDoc) : Bool :=
  match d.keywordField field with
  | some v => vals.contains v
  | none => false

/-- Embeds `IndexingService.delete_by_document_ids(ids)` against a store state: a
`delete_by_query` with a `terms` filter on `"document_id"` and
`refresh=True`, so the returned store is the immediately visible
post-deletion state.  Returns the new store and the deleted count. -/
def delete_by_document_ids (ids : List String) (store : List IndexedDoc) :
    List IndexedDoc × Nat :=
  (store.filter (fun d => !termsMatches "document_id" ids d),
   (store.filter (fun d => termsMatches "document_id" ids d)).length)

/-- Embeds `IndexingService.check_existing_checksums(checksums)`: when the search
succeeds the aggregation buckets are the candidate checksums present in
the store; when the call raises (`reachable = false`) the `except` branch
returns the empty set. -/
def check_existing_checksums (reachable : Bool) (store : List IndexedDoc)
    (checksums : List String) : List String :=
  if reachable then
    checksums.filter (fun c => store.any (fun d => d.documentChecksum = c))
  else
    []

/-- The outcome `index_chunks` computes from the bulk response: `None` when
`bulk_data` is empty (the function falls off the end of the `if`),
otherwise `indexed = len(bulk_data)//2` and `errors = len(error_items)`.
`rejects` is the store's per-record verdict from `response['items']`. -/
def index_chunks_result {α : Type} (chunks : List α) (rejects : List Bool) :
    Option (Nat × Nat) :=
  if chunks.isEmpty then none
  else some (chunks.length, if rejects.any id then (rejects.filter id).length else 0)

/-- The number of records the store actually accepted. -/
def acceptedCount (rejects : List Bool) : Nat :=
  (rejects.filter (fun b => !b)).length

/-! ### `CLI.ingest_folder` dedup selection -/

/-- The new-files split of `ingest_folder`: `(name, checksum)` pairs whose
checksum is not among the existing ones are processed as new. -/
def selectNewPdfs (files : List (String × String)) (existing : List String) :
    List (String × String) :=
  files.filter (fun fc => !existing.contains fc.2)

/-- The skipped-files list of `ingest_folder`. -/
def selectSkippedPdfs (files : List (String × String)) (existing : List String) :
    List String :=
  (files.filter (fun fc => existing.contains fc.2)).map Prod.fst

/-! ### `EmbeddingService` -/

/-- A well-formed `ParagraphChunk` value (field names as in
src/models/chunk.py); `V` is the provider's vector type. -/
structure ParagraphChunk (V : Type) where
  document_id : String
  checksum : String
  is_chart : Bool
  page_number : Nat
  paragraph_or_chart_index : String
  text_content : List Char
  embedding_model : String
  embedding : Option V := none
deriving DecidableEq, Repr

/-- Embeds `EmbeddingService._get_embedding_async`: one provider call; on success
the embedding is attached to the chunk and the chunk returned, an
exception propagates. -/
def getEmbeddingAsync {V : Type} (embed : List Char → Except PyErr V)
    (c : ParagraphChunk V) : Except PyErr (ParagraphChunk V) :=
  (embed c.text_content).map (fun v => { c with embedding := some v })

/-- Embeds `EmbeddingService._get_embeddings_batch`: `asyncio.gather` over one
task per chunk, in input order; `gather` returns the results in the order
of the task list (not completion order) and raises if any task raised. -/
def getEmbeddingsBatch {V : Type} (embed : List Char → Except PyErr V)
    (chunks : List (ParagraphChunk V)) : Except PyErr (List (ParagraphChunk V)) :=
  chunks.mapM (getEmbeddingAsync embed)

/-- Embeds `EmbeddingService.embed_chunks`. -/
def embed_chunks {V : Type} (embed : List Char → Except PyErr V)
    (chunks : List (ParagraphChunk V)) : Except PyErr (List (ParagraphChunk V)) :=
  if chunks.isEmpty then .ok chunks else getEmbeddingsBatch embed chunks

/-- The per-document body of the `for pdf_file in new_pdfs` loop of
`CLI.ingest_folder`: parse, embed, then index.  Any exception lands in the
`except` arm, which only counts the failure, so the store is left as it
was; only after a successful embed are records handed to the writer
(`writeDocs` abstracts the records `index_chunks` adds to the store). -/
def ingestOne {V : Type} (parseRes : Except PyErr (List (ParagraphChunk V)))
    (embed : List Char → Except PyErr V)
    (writeDocs : List (ParagraphChunk V) → List IndexedDoc)
    (store : List IndexedDoc) : List IndexedDoc × Bool :=
  match parseRes with
  | .error _ => (store, false)
  | .ok chunks =>
    match embed_chunks embed chunks with
    | .error _ => (store, false)
    | .ok embedded => (store ++ writeDocs embedded, true)

/-- A sample record as `index_chunks` writes it for a chunk of document
`paper.pdf` with checksum `abc`: no field of the record carries the
document id. -/
def sampleDoc : IndexedDoc :=
  { title := "", documentChecksum := "abc", is_chart := false,
    page_number := 1, paragraph_or_chart_index := "p1",
    text_content := "hello".data, embedding_model := "text-embedding-3-small",
    embedding := [0], pdf_loader := "docling" }

/-- A header splitter that returns the whole text as one headerless
document (used to exercise `_process_content` on a concrete input). -/
def c10hs : List Char → Except PyErr (List HDoc) := fun c => .ok [⟨c, "", "", ""⟩]

/-- A secondary splitter that keeps the text whole. -/
def c10ts : List Char → List (List Char) := fun c => [c]

/-- A concrete block list: one TABLE block followed by one TEXT block. -/
def c10blocks : List Block :=
  [⟨BlockType.table, "Table 1: T\n|x|".data⟩, ⟨BlockType.text, "hi".data⟩]

/-- The chunks `_process_content` produces from `c10blocks`. -/
def c10out : List DChunk :=
  [⟨"table", "Table 1: T\n|x|".data, "Table 1: T".data, 0, true, "0", "", "", ""⟩,
   ⟨"text", "hi".data, [], 14, false, "1", "", "", ""⟩]

/-! ## Helper lemmas -/

theorem Block_content_mk (t : BlockType) (c : List Char) :
    Block.content ⟨t, c⟩ = c := rfl

theorem joinNL_cons_ne {x : List Char} {xs : List (List Char)} (h : xs ≠ []) :
    joinNL (x :: xs) = x ++ '\n' :: joinNL xs := by
  cases xs with
  | nil => exact absurd rfl h
  | cons y ys => rfl

theorem joinNL_append {a b : List (List Char)} (ha : a ≠ []) (hb : b ≠ []) :
    joinNL (a ++ b) = joinNL a ++ '\n' :: joinNL b := by
  induction a with
  | nil => exact absurd rfl ha
  | cons x xs ih =>
    cases xs with
    | nil =>
      rw [List.singleton_append, joinNL_cons_ne hb]
      rfl
    | cons y ys =>
      rw [List.cons_append, joinNL_cons_ne (List.append_ne_nil_of_left_ne_nil (List.cons_ne_nil y ys) b),
        ih (List.cons_ne_nil y ys), joinNL_cons_ne (List.cons_ne_nil y ys)]
      simp

theorem flushText_of_ne {accum : List (List Char)} (h : accum ≠ []) :
    flushText accum = [⟨BlockType.text, joinNL accum⟩] := by
  unfold flushText
  rw [if_neg (by simpa using h)]

theorem splitIntoBlocksGo_nil (accum : List (List Char)) :
    splitIntoBlocksGo [] accum = flushText accum := by
  rw [splitIntoBlocksGo.eq_def]

theorem splitIntoBlocksGo_one (l : List Char) (accum : List (List Char)) :
    splitIntoBlocksGo [l] accum = flushText (accum ++ [l]) := by
  rw [splitIntoBlocksGo.eq_def]

theorem splitIntoBlocksGo_cons_cons (l next : List Char) (rest accum : List (List Char)) :
    splitIntoBlocksGo (l :: next :: rest) accum =
      if tableTitleMatch (pyStrip l) = true then
        if tableRowMatch (pyStrip next) = true then
          flushText accum
            ++ [⟨BlockType.table,
                 joinNL (l :: (next :: rest).takeWhile (fun x => tableRowMatch (pyStrip x)))⟩]
            ++ splitIntoBlocksGo ((next :: rest).dropWhile (fun x => tableRowMatch (pyStrip x))) []
        else splitIntoBlocksGo (next :: rest) (accum ++ [l])
      else splitIntoBlocksGo (next :: rest) (accum ++ [l]) := by
  rw [splitIntoBlocksGo.eq_def]

theorem splitIntoBlocksGo_ne_nil : ∀ (lines accum : List (List Char)),
    lines ≠ [] ∨ accum ≠ [] → splitIntoBlocksGo lines accum ≠ [] := by
  intro lines accum h
  induction lines, accum using splitIntoBlocksGo.induct with
  | case1 accum =>
    rcases h with h | h
    · exact absurd rfl h
    · rw [splitIntoBlocksGo_nil, flushText_of_ne h]
      simp
  | case2 l accum =>
    rw [splitIntoBlocksGo_one, flushText_of_ne (by simp)]
    simp
  | case3 l next rest accum htitle hrow ih =>
    rw [splitIntoBlocksGo_cons_cons, if_pos htitle, if_pos hrow]
    simp
  | case4 l next rest accum htitle hnrow ih =>
    rw [splitIntoBlocksGo_cons_cons, if_pos htitle, if_neg hnrow]
    exact ih (Or.inr (by simp))
  | case5 l next rest accum hntitle ih =>
    rw [splitIntoBlocksGo_cons_cons, if_neg hntitle]
    exact ih (Or.inr (by simp))

theorem contentJoin_go : ∀ (lines accum : List (List Char)),
    joinNL ((splitIntoBlocksGo lines accum).map Block.content) = joinNL (accum ++ lines) := by
  intro lines accum
  induction lines, accum using splitIntoBlocksGo.induct with
  | case1 accum =>
    rw [splitIntoBlocksGo_nil, List.append_nil]
    cases accum with
    | nil => rfl
    | cons a as =>
      rw [flushText_of_ne (List.cons_ne_nil a as)]
      rfl
  | case2 l accum =>
    rw [splitIntoBlocksGo_one, flushText_of_ne (by simp)]
    rfl
  | case3 l next rest accum htitle hrow ih =>
    rw [splitIntoBlocksGo_cons_cons, if_pos htitle, if_pos hrow]
    have hsplit : (next :: rest).takeWhile (fun x => tableRowMatch (pyStrip x))
        ++ (next :: rest).dropWhile (fun x => tableRowMatch (pyStrip x)) = next :: rest :=
      List.takeWhile_append_dropWhile _ _
    set rows := (next :: rest).takeWhile (fun x => tableRowMatch (pyStrip x)) with hrows
    set rest' := (next :: rest).dropWhile (fun x => tableRowMatch (pyStrip x)) with hrest'
    have hIH : joinNL ((splitIntoBlocksGo rest' []).map Block.content) = joinNL rest' := by
      simpa using ih
    have hrhs : accum ++ l :: next :: rest = accum ++ ((l :: rows) ++ rest') := by
      rw [List.cons_append, hsplit]
    have hgonil : splitIntoBlocksGo [] ([] : List (List Char)) = [] := by
      rw [splitIntoBlocksGo_nil]
      rfl
    rw [hrhs, List.map_append, List.map_append, List.map_cons, List.map_nil]
    simp only [Block_content_mk]
    by_cases haccum : accum = []
    · subst haccum
      rw [show flushText [] = ([] : List Block) from rfl, List.map_nil, List.nil_append,
        List.nil_append]
      by_cases hr : rest' = []
      · rw [hr, hgonil]
        simp only [List.map_nil, List.append_nil]
        rfl
      · have hne : (splitIntoBlocksGo rest' []).map Block.content ≠ [] := by
          simpa using splitIntoBlocksGo_ne_nil rest' [] (Or.inl hr)
        rw [List.singleton_append, joinNL_cons_ne hne, hIH,
          joinNL_append (List.cons_ne_nil l rows) hr]
    · rw [flushText_of_ne haccum, List.map_cons, List.map_nil]
      simp only [Block_content_mk]
      by_cases hr : rest' = []
      · rw [hr, hgonil]
        rw [List.map_nil, List.append_nil, List.append_nil,
          joinNL_append haccum (List.cons_ne_nil l rows)]
        rw [List.singleton_append, joinNL_cons_ne (List.cons_ne_nil _ [])]
        rfl
      · have hne : (splitIntoBlocksGo rest' []).map Block.content ≠ [] := by
          simpa using splitIntoBlocksGo_ne_nil rest' [] (Or.inl hr)
        simp only [List.cons_append, List.singleton_append, List.nil_append]
        rw [joinNL_cons_ne (List.cons_ne_nil _ _), joinNL_cons_ne hne, hIH]
        rw [show accum ++ l :: (rows ++ rest') = accum ++ ((l :: rows) ++ rest') from rfl]
        rw [joinNL_append haccum (List.append_ne_nil_of_left_ne_nil (List.cons_ne_nil l rows) rest'),
          joinNL_append (List.cons_ne_nil l rows) hr]
  | case4 l next rest accum htitle hnrow ih =>
    rw [splitIntoBlocksGo_cons_cons, if_pos htitle, if_neg hnrow, ih, List.append_assoc]
    rfl
  | case5 l next rest accum hntitle ih =>
    rw [splitIntoBlocksGo_cons_cons, if_neg hntitle, ih, List.append_assoc]
    rfl

theorem stripTrailingNL_cons {c : Char} {cs : List Char} (h : cs ≠ []) :
    stripTrailingNL (c :: cs) = c :: stripTrailingNL cs := by
  obtain ⟨d, ds, rfl⟩ : ∃ d ds, cs = d :: ds := by
    cases cs with
    | nil => exact absurd rfl h
    | cons d ds => exact ⟨d, ds, rfl⟩
  unfold stripTrailingNL
  rw [List.getLast?_cons_cons]
  by_cases hl : (d :: ds).getLast? = some '\n'
  · rw [if_pos hl, if_pos hl, List.dropLast_cons₂]
  · rw [if_neg hl, if_neg hl]

theorem normalizeSeps_ne_nil : ∀ cs : List Char, cs ≠ [] → normalizeSeps cs ≠ [] := by
  intro cs h
  match cs with
  | [] => exact absurd rfl h
  | [c] =>
    by_cases hc : isLineSep c = true
    · simp [normalizeSeps, hc]
    · simp [normalizeSeps, hc]
  | c :: d :: rest =>
    by_cases hc : isLineSep c = true
    · by_cases hp : (c = '\r' && d = '\n') = true
      · simp [normalizeSeps, hc, hp]
      · simp [normalizeSeps, hc, hp]
    · simp [normalizeSeps, hc]

theorem splitlinesGo_eq_nil_iff : ∀ (cs cur : List Char),
    splitlinesGo cs cur = [] ↔ cs = [] ∧ cur = [] := by
  intro cs cur
  induction cs, cur using splitlinesGo.induct with
  | case1 cur hcur =>
    have hc : cur = [] := by simpa using hcur
    simp [splitlinesGo, hcur, hc]
  | case2 cur hcur =>
    have hc : cur ≠ [] := by simpa using hcur
    simp [splitlinesGo, hcur, hc]
  | case3 c cur hc => simp [splitlinesGo, hc]
  | case4 c cur hc => simp [splitlinesGo, hc]
  | case5 c d rest cur hc hp ih => simp [splitlinesGo, hc, hp]
  | case6 c d rest cur hc hp ih => simp [splitlinesGo, hc, hp]
  | case7 c d rest cur hc ih => simp [splitlinesGo, hc, ih]

theorem joinNL_splitlinesGo : ∀ (cs cur : List Char),
    joinNL (splitlinesGo cs cur) = cur ++ stripTrailingNL (normalizeSeps cs) := by
  intro cs cur
  induction cs, cur using splitlinesGo.induct with
  | case1 cur hcur =>
    have hc : cur = [] := by simpa using hcur
    subst hc
    rfl
  | case2 cur hcur =>
    simp [splitlinesGo, hcur, normalizeSeps, stripTrailingNL, joinNL]
  | case3 c cur hc =>
    simp [splitlinesGo, hc, normalizeSeps, stripTrailingNL, joinNL]
  | case4 c cur hc =>
    have hcn : c ≠ '\n' := by
      intro hh
      subst hh
      simp [isLineSep] at hc
    simp [splitlinesGo, hc, normalizeSeps, stripTrailingNL, joinNL, hcn]
  | case5 c d rest cur hc hp ih =>
    rw [show splitlinesGo (c :: d :: rest) cur = cur :: splitlinesGo rest [] from by
      simp [splitlinesGo, hc, hp]]
    rw [show normalizeSeps (c :: d :: rest) = '\n' :: normalizeSeps rest from by
      simp [normalizeSeps, hc, hp]]
    by_cases hr : rest = []
    · subst hr
      simp [splitlinesGo, normalizeSeps, stripTrailingNL, joinNL]
    · have hgo : splitlinesGo rest [] ≠ [] := by
        rw [Ne, splitlinesGo_eq_nil_iff]
        simp [hr]
      rw [joinNL_cons_ne hgo, ih, stripTrailingNL_cons (normalizeSeps_ne_nil rest hr)]
      simp
  | case6 c d rest cur hc hp ih =>
    rw [show splitlinesGo (c :: d :: rest) cur = cur :: splitlinesGo (d :: rest) [] from by
      simp [splitlinesGo, hc, hp]]
    rw [show normalizeSeps (c :: d :: rest) = '\n' :: normalizeSeps (d :: rest) from by
      simp [normalizeSeps, hc, hp]]
    have hgo : splitlinesGo (d :: rest) [] ≠ [] := by
      rw [Ne, splitlinesGo_eq_nil_iff]
      simp
    rw [joinNL_cons_ne hgo, ih,
      stripTrailingNL_cons (normalizeSeps_ne_nil (d :: rest) (by simp))]
    simp
  | case7 c d rest cur hc ih =>
    rw [show splitlinesGo (c :: d :: rest) cur = splitlinesGo (d :: rest) (cur ++ [c]) from by
      simp [splitlinesGo, hc]]
    rw [ih]
    rw [show normalizeSeps (c :: d :: rest) = c :: normalizeSeps (d :: rest) from by
      simp [normalizeSeps, hc]]
    rw [stripTrailingNL_cons (normalizeSeps_ne_nil (d :: rest) (by simp))]
    simp

/-! ## Claim theorems -/

theorem length_filter_id_add (l : List Bool) :
    (l.filter id).length + (l.filter (fun b => !b)).length = l.length := by
  induction l with
  | nil => rfl
  | cons b bs ih =>
    cases b <;> simp [List.filter_cons] <;> omega

/-- C3: In the block-splitting pass, a line whose stripped form matches the
table-title pattern is resolved by one-line lookahead: if the immediately
next line is a table row, one TABLE block consisting of the title line plus
all immediately following table-row lines is emitted, with the pending text
flushed as a TEXT block first, and scanning continues right after the last
consumed row (whose successor line, if any, is not a table row); if the
next line is not a table row (a blank line included), the title line is
appended to the text accumulator and no TABLE block is formed from it. -/
theorem split_into_blocks_lookahead
    (accum : List (List Char)) (l next : List Char) (rest : List (List Char))
    (htitle : tableTitleMatch (pyStrip l) = true) :
    (tableRowMatch (pyStrip next) = true →
      ∃ rows rest',
        next :: rest = rows ++ rest' ∧
        rows ≠ [] ∧
        (∀ r ∈ rows, tableRowMatch (pyStrip r) = true) ∧
        (∀ r, rest'.head? = some r → tableRowMatch (pyStrip r) = false) ∧
        splitIntoBlocksGo (l :: next :: rest) accum =
          flushText accum
            ++ ⟨BlockType.table, joinNL (l :: rows)⟩ :: splitIntoBlocksGo rest' []) ∧
    (tableRowMatch (pyStrip next) = false →
      splitIntoBlocksGo (l :: next :: rest) accum =
        splitIntoBlocksGo (next :: rest) (accum ++ [l])) := by
  constructor
  · intro hrow
    refine ⟨(next :: rest).takeWhile (fun x => tableRowMatch (pyStrip x)),
      (next :: rest).dropWhile (fun x => tableRowMatch (pyStrip x)),
      (List.takeWhile_append_dropWhile _ _).symm, ?_, ?_, ?_, ?_⟩
    · simp [List.takeWhile_cons, hrow]
    · intro r hr
      have h1 := List.mem_takeWhile_imp hr
      simpa using h1
    · intro r hr
      have h0 := List.head?_dropWhile_not (fun x => tableRowMatch (pyStrip x)) (next :: rest)
      rw [hr] at h0
      exact h0
    · rw [splitIntoBlocksGo_cons_cons, if_pos htitle, if_pos hrow]
      simp
  · intro hnrow
    rw [splitIntoBlocksGo_cons_cons, if_pos htitle, if_neg (by simp [hnrow])]

/-- Witness for C3 at the spec's two concrete cases: a title followed by
rows forms a TABLE block after flushing the pending prose, and a title
followed by prose is accumulated as text. -/
theorem split_into_blocks_lookahead_witness :
    (∃ rows rest',
        ("|A|B|".data :: ["|1|2|".data]) = rows ++ rest' ∧
        rows ≠ [] ∧
        (∀ r ∈ rows, tableRowMatch (pyStrip r) = true) ∧
        (∀ r, rest'.head? = some r → tableRowMatch (pyStrip r) = false) ∧
        splitIntoBlocksGo ("Table 1: Results".data :: "|A|B|".data :: ["|1|2|".data])
            ["intro".data] =
          flushText ["intro".data]
            ++ ⟨BlockType.table, joinNL ("Table 1: Results".data :: rows)⟩
              :: splitIntoBlocksGo rest' []) ∧
    (splitIntoBlocksGo ("Table 1: Results".data :: "More prose.".data :: []) [] =
      splitIntoBlocksGo ("More prose.".data :: []) ([] ++ ["Table 1: Results".data])) :=
  ⟨(split_into_blocks_lookahead ["intro".data] "Table 1: Results".data "|A|B|".data
      ["|1|2|".data] (by decide)).1 (by decide),
   (split_into_blocks_lookahead [] "Table 1: Results".data "More prose.".data []
      (by decide)).2 (by decide)⟩

/-- C6 counterexample: on `"a\r\nb"` the splitter produces the single TEXT
block `"a\nb"` — the `\r` of the `\r\n` line break is dropped in the
middle of the only block, where there is no block boundary — so joining
the block contents does not reproduce the input exactly (the input has no
trailing newline either, so the boundary tolerance cannot account for the
missing byte). -/
theorem split_into_blocks_lossless_counterexample :
    splitIntoBlocks "a\r\nb".data = [⟨BlockType.text, "a\nb".data⟩] ∧
    joinNL ((splitIntoBlocks "a\r\nb".data).map Block.content)
      ≠ stripTrailingNL "a\r\nb".data ∧
    stripTrailingNL "a\r\nb".data = "a\r\nb".data := by
  have h1 : splitlines "a\r\nb".data = ["a".data, "b".data] := by decide
  have h2 : splitIntoBlocks "a\r\nb".data = [⟨BlockType.text, "a\nb".data⟩] := by
    unfold splitIntoBlocks
    rw [h1, splitIntoBlocksGo_cons_cons, if_neg (by decide), splitIntoBlocksGo_one,
      flushText_of_ne (by simp)]
    decide
  refine ⟨h2, ?_, by decide⟩
  rw [h2]
  decide

/-- C6 (amended): Splitting is lossless up to line-separator
normalization: joining the contents of the blocks of
`splitIntoBlocks content` in order, with a single newline at each
line/block boundary, reproduces `content` with every Python line
separator (`\r\n`, `\r`, `\v`, `\f`, `\x1C`–`\x1E`, `\x85`, U+2028,
U+2029) replaced by a single `\n` and at most one trailing separator
dropped; no other character is dropped — but this normalization happens
at every line break, inside blocks too, not only at block boundaries. -/
theorem split_into_blocks_lossless_normalized (content : List Char) :
    joinNL ((splitIntoBlocks content).map Block.content)
      = stripTrailingNL (normalizeSeps content) := by
  unfold splitIntoBlocks
  rw [contentJoin_go, List.nil_append]
  unfold splitlines
  rw [joinNL_splitlinesGo, List.nil_append]

/-- C1: `delete_by_document_ids` can never remove any record that
`index_chunks` wrote, because the written records have no `document_id`
field, so the `terms` filter matches no document.  In particular after
deleting by a document's id the store is unchanged, the deleted count is 0,
and an existence check for that document's checksum still succeeds. -/
theorem delete_by_document_ids_never_deletes :
    (∀ (ids : List String) (store : List IndexedDoc),
      delete_by_document_ids ids store = (store, 0)) ∧
    delete_by_document_ids ["paper.pdf"] [sampleDoc] = ([sampleDoc], 0) ∧
    check_existing_checksums true [sampleDoc] ["abc"] = ["abc"] := by
  have hm : ∀ (ids : List String) (d : IndexedDoc),
      termsMatches "document_id" ids d = false := fun ids d => rfl
  have hgen : ∀ (ids : List String) (store : List IndexedDoc),
      delete_by_document_ids ids store = (store, 0) := by
    intro ids store
    have h1 : store.filter (fun d => !termsMatches "document_id" ids d) = store :=
      List.filter_eq_self.mpr (fun a _ => by rw [hm ids a]; rfl)
    have h2 : store.filter (fun d => termsMatches "document_id" ids d) = [] :=
      List.filter_eq_nil_iff.mpr (fun a _ => by rw [hm ids a]; simp)
    unfold delete_by_document_ids
    rw [h1, h2]
    rfl
  exact ⟨hgen, hgen _ _, by decide⟩

/-- C2: `parse_pdf` constructs `ParagraphChunk` with the keyword arguments
`documentChecksum` and `pdf_loader`, which are not fields of the dataclass
(whose checksum field is named `checksum` and which has no `pdf_loader` or
`title` field), so for any non-empty page list it raises `TypeError`
before returning any chunks; and `index_chunks` fails with
`AttributeError` reading `chunk.title` from any well-formed
`ParagraphChunk`. -/
theorem parse_pdf_type_error :
    ("documentChecksum" ∈ parsePdfTextKwargs ∧
     "documentChecksum" ∉ paragraphChunkFields ∧
     "pdf_loader" ∈ parsePdfTextKwargs ∧
     "pdf_loader" ∉ paragraphChunkFields ∧
     "title" ∉ paragraphChunkFields) ∧
    (∀ pages : List LoaderPage, pages ≠ [] →
      parsePdfPages pages = .error .typeError) ∧
    indexChunksBuildDoc indexChunksAttrsRead = .error .attributeError := by
  refine ⟨by decide, ?_, by decide⟩
  intro pages hne
  cases pages with
  | nil => exact absurd rfl hne
  | cons p rest =>
    have h : mkParagraphChunkKw parsePdfTextKwargs = .error .typeError := by decide
    simp [parsePdfPages, h]

/-- Witness for C2: the loader output for a one-page document makes
`parse_pdf` raise `TypeError`. -/
theorem parse_pdf_type_error_witness :
    parsePdfPages [⟨1, "hello".data, 0⟩] = .error .typeError :=
  parse_pdf_type_error.2.1 [⟨1, "hello".data, 0⟩] (by decide)

/-- C5: when the existence-check call fails, `check_existing_checksums`
returns the empty set instead of raising, so `ingest_folder` treats every
candidate file as new and skips none. -/
theorem check_existing_checksums_degrades (store : List IndexedDoc)
    (checksums : List String) (files : List (String × String)) :
    check_existing_checksums false store checksums = [] ∧
    selectNewPdfs files (check_existing_checksums false store checksums) = files ∧
    selectSkippedPdfs files (check_existing_checksums false store checksums) = [] := by
  refine ⟨rfl, ?_, ?_⟩
  · rw [show check_existing_checksums false store checksums = [] from rfl]
    exact List.filter_eq_self.mpr (fun a _ => rfl)
  · rw [show check_existing_checksums false store checksums = [] from rfl]
    unfold selectSkippedPdfs
    rw [List.filter_eq_nil_iff.mpr (fun a _ => by simp [List.contains])]
    rfl

/-- C8 counterexample: with three chunks of which the store rejects one,
`index_chunks` reports `indexed = 3` (the attempted count) although only
2 records were actually indexed, so the reported written count does not
reflect only the records actually indexed. -/
theorem index_chunks_counts_counterexample :
    index_chunks_result [(), (), ()] [false, true, false] = some (3, 1) ∧
    acceptedCount [false, true, false] = 2 ∧ (3 : Nat) ≠ 2 := by decide

/-- C8 (amended): for a non-empty chunk list, `index_chunks` returns
`indexed` = number of chunks submitted (total attempted) and `errors` =
number of records the store rejected; the accepted count is attempted
minus errors, and a partial failure always surfaces as a positive error
count rather than being swallowed. -/
theorem index_chunks_reports_attempted_and_errors {α : Type} (chunks : List α)
    (rejects : List Bool) (hne : chunks ≠ []) (hlen : rejects.length = chunks.length) :
    index_chunks_result chunks rejects =
      some (chunks.length, (rejects.filter id).length) ∧
    chunks.length - (rejects.filter id).length = acceptedCount rejects ∧
    ((∃ r ∈ rejects, r = true) → 0 < (rejects.filter id).length) := by
  have hsum := length_filter_id_add rejects
  refine ⟨?_, ?_, ?_⟩
  · unfold index_chunks_result
    rw [if_neg (by simpa using hne)]
    by_cases hany : rejects.any id
    · rw [if_pos hany]
    · rw [if_neg hany]
      have h0 : rejects.filter id = [] :=
        List.filter_eq_nil_iff.mpr (fun b hb hbt =>
          hany (List.any_eq_true.mpr ⟨b, hb, hbt⟩))
      rw [h0]
      rfl
  · unfold acceptedCount
    omega
  · rintro ⟨r, hr, rfl⟩
    have hmem : true ∈ rejects.filter id := List.mem_filter.mpr ⟨hr, rfl⟩
    exact List.length_pos.mpr (fun hnil => by rw [hnil] at hmem; cases hmem)

/-- Witness for C8 (amended) at two chunks with one rejection. -/
theorem index_chunks_reports_attempted_and_errors_witness :
    index_chunks_result [(), ()] [true, false] =
      some (([(), ()] : List Unit).length, ([true, false].filter id).length) ∧
    ([(), ()] : List Unit).length - ([true, false].filter id).length
      = acceptedCount [true, false] ∧
    ((∃ r ∈ [true, false], r = true) → 0 < ([true, false].filter id).length) :=
  index_chunks_reports_attempted_and_errors [(), ()] [true, false] (by decide) (by decide)

/-- C9: when the header splitter raises on a TEXT block, the exception
propagates out of `_process_content` unhandled — the document's ingestion
aborts with the error; the paragraph-boundary fallback (`fallbackSplit`,
which the source defines but never calls) is not invoked. -/
theorem process_content_header_failure_aborts
    (hs : List Char → Except PyErr (List HDoc)) (ts : List Char → List (List Char))
    (b : Block) (rest : List Block) (chunks : List DChunk) (offset : Nat) (e : PyErr)
    (hb : b.type = BlockType.text) (he : hs b.content = .error e) :
    processContentGo hs ts (b :: rest) chunks offset = .error e := by
  cases b with
  | mk ty content =>
    simp only [Block_content_mk] at he
    cases hb
    simp [processContentGo, he]

/-- Witness for C9: a failing header splitter aborts processing of a text
block with its error. -/
theorem process_content_header_failure_aborts_witness :
    processContentGo (fun _ => .error PyErr.providerError) (fun c => [c])
      [⟨BlockType.text, "x".data⟩] [] 0 = .error PyErr.providerError :=
  process_content_header_failure_aborts _ _ _ _ _ _ _ rfl rfl

theorem except_bind_ok {ε α β : Type} (a : α) (k : α → Except ε β) :
    (Except.ok a >>= k) = k a := rfl

theorem except_bind_error {ε α β : Type} (e : ε) (k : α → Except ε β) :
    ((Except.error e : Except ε α) >>= k) = .error e := rfl

theorem mapM_error_of_exists {α β : Type} (f : α → Except PyErr β) :
    ∀ l : List α, (∃ a ∈ l, ∃ e, f a = .error e) →
      ∃ e, l.mapM f = .error e := by
  intro l
  induction l with
  | nil =>
    rintro ⟨a, ha, _⟩
    cases ha
  | cons a as ih =>
    rintro ⟨b, hb, e, he⟩
    rw [List.mapM_cons]
    rcases List.mem_cons.mp hb with rfl | hbin
    · refine ⟨e, ?_⟩
      rw [he]
      rfl
    · cases hfa : f a with
      | error e' =>
        exact ⟨e', rfl⟩
      | ok x =>
        obtain ⟨e'', he''⟩ := ih ⟨b, hbin, e, he⟩
        refine ⟨e'', ?_⟩
        simp only [except_bind_ok]
        rw [he'']
        rfl

theorem mapM_ok_get {α β : Type} (f : α → Except PyErr β) :
    ∀ (l : List α) (res : List β), l.mapM f = .ok res →
      res.length = l.length ∧
      ∀ (i : Nat) (a : α), l[i]? = some a → ∃ b, f a = .ok b ∧ res[i]? = some b := by
  intro l
  induction l with
  | nil =>
    intro res h
    rw [List.mapM_nil] at h
    have hres : res = [] := by
      cases h
      rfl
    subst hres
    exact ⟨rfl, fun i a hia => by simp at hia⟩
  | cons x xs ih =>
    intro res h
    rw [List.mapM_cons] at h
    cases hfx : f x with
    | error e =>
      rw [hfx] at h
      rw [except_bind_error] at h
      cases h
    | ok b =>
      rw [hfx] at h
      simp only [except_bind_ok] at h
      cases hm : xs.mapM f with
      | error e =>
        rw [hm, except_bind_error] at h
        cases h
      | ok tail =>
        rw [hm, except_bind_ok] at h
        have hres : res = b :: tail := by
          cases h
          rfl
        subst hres
        obtain ⟨hlen, hidx⟩ := ih tail hm
        refine ⟨by simp [hlen], ?_⟩
        intro i a hia
        cases i with
        | zero =>
          rw [List.getElem?_cons_zero] at hia
          cases hia
          exact ⟨b, hfx, by rw [List.getElem?_cons_zero]⟩
        | succ n =>
          rw [List.getElem?_cons_succ] at hia
          obtain ⟨bb, hfb, hrb⟩ := hidx n a hia
          exact ⟨bb, hfb, by rw [List.getElem?_cons_succ]; exact hrb⟩

/-- C4: embedding is all-or-nothing per document: for a non-empty chunk
list where some embedding request fails, `embed_chunks` raises, and the
per-document ingestion step leaves the store untouched (no partial
write) and marks the document failed. -/
theorem embed_chunks_all_or_nothing {V : Type} (embed : List Char → Except PyErr V)
    (chunks : List (ParagraphChunk V))
    (writeDocs : List (ParagraphChunk V) → List IndexedDoc) (store : List IndexedDoc)
    (hne : chunks ≠ [])
    (hfail : ∃ c ∈ chunks, ∃ e, embed c.text_content = .error e) :
    (∃ e, embed_chunks embed chunks = .error e) ∧
    ingestOne (.ok chunks) embed writeDocs store = (store, false) := by
  have hb : ∃ e, getEmbeddingsBatch embed chunks = .error e := by
    apply mapM_error_of_exists
    obtain ⟨c, hc, e, he⟩ := hfail
    refine ⟨c, hc, e, ?_⟩
    unfold getEmbeddingAsync
    rw [he]
    rfl
  obtain ⟨e, he⟩ := hb
  have hec : embed_chunks embed chunks = .error e := by
    unfold embed_chunks
    rw [if_neg (by simpa using hne)]
    exact he
  exact ⟨⟨e, hec⟩, by simp [ingestOne, hec]⟩

/-- Witness for C4: one chunk whose embedding request fails. -/
theorem embed_chunks_all_or_nothing_witness :
    (∃ e, embed_chunks (fun _ => (.error .providerError : Except PyErr Unit))
        [⟨"doc.pdf", "abc", false, 1, "p1", "hi".data, "m", none⟩] = .error e) ∧
    ingestOne (.ok [⟨"doc.pdf", "abc", false, 1, "p1", "hi".data, "m", none⟩])
        (fun _ => (.error .providerError : Except PyErr Unit)) (fun _ => []) []
      = ([], false) :=
  embed_chunks_all_or_nothing _ _ _ _ (by simp)
    ⟨_, List.mem_singleton.mpr rfl, .providerError, rfl⟩

/-- C7: `embed_chunks` preserves length and order: on success the i-th
output element is exactly the i-th input chunk with its own embedding
attached (`gather` joins results in task order, one task per chunk). -/
theorem embed_chunks_preserves_order {V : Type} (embed : List Char → Except PyErr V)
    (chunks out : List (ParagraphChunk V))
    (h : embed_chunks embed chunks = .ok out) :
    out.length = chunks.length ∧
    ∀ (i : Nat) (c : ParagraphChunk V), chunks[i]? = some c →
      ∃ v, embed c.text_content = .ok v ∧
        out[i]? = some { c with embedding := some v } := by
  by_cases hne : chunks.isEmpty
  · have hc : chunks = [] := by simpa using hne
    subst hc
    unfold embed_chunks at h
    simp only [List.isEmpty_nil, if_true] at h
    have hout : out = [] := by
      cases h
      rfl
    subst hout
    exact ⟨rfl, fun i c hic => by simp at hic⟩
  · unfold embed_chunks at h
    rw [if_neg (by simpa using hne)] at h
    obtain ⟨hlen, hidx⟩ := mapM_ok_get (getEmbeddingAsync embed) chunks out h
    refine ⟨hlen, ?_⟩
    intro i c hic
    obtain ⟨b, hb, hob⟩ := hidx i c hic
    unfold getEmbeddingAsync at hb
    cases hv : embed c.text_content with
    | error e =>
      rw [hv] at hb
      simp [Except.map] at hb
    | ok v =>
      rw [hv] at hb
      have hbv : b = { c with embedding := some v } := by
        simpa [Except.map] using hb.symm
      subst hbv
      exact ⟨v, rfl, hob⟩

/-- Witness for C7: one chunk, one successful embedding. -/
theorem embed_chunks_preserves_order_witness :
    ([⟨"doc.pdf", "abc", false, 1, "p1", "hi".data, "m", some 7⟩]
        : List (ParagraphChunk Nat)).length
      = ([⟨"doc.pdf", "abc", false, 1, "p1", "hi".data, "m", none⟩]
        : List (ParagraphChunk Nat)).length ∧
    ∀ (i : Nat) (c : ParagraphChunk Nat),
      ([⟨"doc.pdf", "abc", false, 1, "p1", "hi".data, "m", none⟩]
        : List (ParagraphChunk Nat))[i]? = some c →
      ∃ v, (fun _ : List Char => (.ok 7 : Except PyErr Nat)) c.text_content = .ok v ∧
        ([⟨"doc.pdf", "abc", false, 1, "p1", "hi".data, "m", some 7⟩]
          : List (ParagraphChunk Nat))[i]? = some { c with embedding := some v } :=
  embed_chunks_preserves_order (fun _ => .ok 7)
    [⟨"doc.pdf", "abc", false, 1, "p1", "hi".data, "m", none⟩]
    [⟨"doc.pdf", "abc", false, 1, "p1", "hi".data, "m", some 7⟩] (by decide)

theorem range'_append_one (s m n : Nat) :
    List.range' s m ++ List.range' (s + m) n = List.range' s (m + n) := by
  induction m generalizing s with
  | zero => simp
  | succ k ih =>
    have e1 : s + (k + 1) = (s + 1) + k := by omega
    have e2 : k + 1 + n = (k + n) + 1 := by omega
    rw [List.range'_succ, List.cons_append, e1, ih, e2, List.range'_succ]

theorem idx_merge {s : Nat} {a b : List DChunk}
    (ha : a.map DChunk.chunk_index = (List.range' s a.length).map Nat.repr)
    (hb : b.map DChunk.chunk_index = (List.range' (s + a.length) b.length).map Nat.repr) :
    (a ++ b).map DChunk.chunk_index = (List.range' s (a ++ b).length).map Nat.repr := by
  rw [List.map_append, ha, hb, List.length_append, ← range'_append_one s a.length b.length,
    List.map_append]

theorem appendSubChunks_fst (doc : HDoc) :
    ∀ (scs : List (List Char)) (chunks : List DChunk) (offset : Nat),
    ∃ news : List DChunk,
      (appendSubChunks doc scs chunks offset).1 = chunks ++ news ∧
      news.map DChunk.chunk_index = (List.range' chunks.length news.length).map Nat.repr ∧
      ∀ ch ∈ news, ch.ctype = "text" := by
  intro scs
  induction scs with
  | nil =>
    intro chunks offset
    exact ⟨[], by simp [appendSubChunks], by simp, by simp⟩
  | cons sc rest ih =>
    intro chunks offset
    obtain ⟨news, h1, h2, h3⟩ :=
      ih (chunks ++ [mkTextChunk sc offset (Nat.repr chunks.length) doc]) (offset + sc.length)
    refine ⟨mkTextChunk sc offset (Nat.repr chunks.length) doc :: news, ?_, ?_, ?_⟩
    · rw [show appendSubChunks doc (sc :: rest) chunks offset
          = appendSubChunks doc rest
              (chunks ++ [mkTextChunk sc offset (Nat.repr chunks.length) doc])
              (offset + sc.length) from rfl, h1]
      simp
    · rw [List.map_cons, List.length_cons, List.range'_succ, List.map_cons]
      congr 1
      simpa using h2
    · intro ch hch
      rcases List.mem_cons.mp hch with rfl | hm
      · rfl
      · exact h3 ch hm

theorem processDocs_fst (ts : List Char → List (List Char)) :
    ∀ (docs : List HDoc) (chunks : List DChunk) (offset : Nat),
    ∃ news : List DChunk,
      (processDocs ts docs chunks offset).1 = chunks ++ news ∧
      news.map DChunk.chunk_index = (List.range' chunks.length news.length).map Nat.repr ∧
      ∀ ch ∈ news, ch.ctype = "text" := by
  intro docs
  induction docs with
  | nil =>
    intro chunks offset
    exact ⟨[], by simp [processDocs], by simp, by simp⟩
  | cons doc rest ih =>
    intro chunks offset
    by_cases hbig : doc.page_content.length > 2000
    · have hstep : processDocs ts (doc :: rest) chunks offset
          = processDocs ts rest
              (appendSubChunks doc (ts doc.page_content) chunks offset).1
              (appendSubChunks doc (ts doc.page_content) chunks offset).2 := by
        simp only [processDocs]
        rw [if_pos hbig]
      obtain ⟨n1, ha1, ha2, ha3⟩ := appendSubChunks_fst doc (ts doc.page_content) chunks offset
      obtain ⟨n2, hb1, hb2, hb3⟩ :=
        ih (appendSubChunks doc (ts doc.page_content) chunks offset).1
           (appendSubChunks doc (ts doc.page_content) chunks offset).2
      rw [ha1, List.length_append] at hb2
      refine ⟨n1 ++ n2, ?_, idx_merge ha2 hb2, ?_⟩
      · rw [hstep, hb1, ha1, List.append_assoc]
      · intro ch hch
        rcases List.mem_append.mp hch with hm | hm
        · exact ha3 ch hm
        · exact hb3 ch hm
    · have hstep : processDocs ts (doc :: rest) chunks offset
          = processDocs ts rest
              (chunks ++ [mkTextChunk doc.page_content offset (Nat.repr chunks.length) doc])
              (offset + doc.page_content.length) := by
        simp only [processDocs]
        rw [if_neg hbig]
      obtain ⟨n2, hb1, hb2, hb3⟩ :=
        ih (chunks ++ [mkTextChunk doc.page_content offset (Nat.repr chunks.length) doc])
           (offset + doc.page_content.length)
      rw [List.length_append] at hb2
      refine ⟨[mkTextChunk doc.page_content offset (Nat.repr chunks.length) doc] ++ n2,
        ?_, idx_merge (by simp [mkTextChunk, List.range'_one]) (by simpa using hb2), ?_⟩
      · rw [hstep, hb1, List.append_assoc]
      · intro ch hch
        rcases List.mem_append.mp hch with hm | hm
        · rcases List.mem_singleton.mp hm with rfl
          rfl
        · exact hb3 ch hm

theorem processContentGo_spec (hs : List Char → Except PyErr (List HDoc))
    (ts : List Char → List (List Char)) :
    ∀ (blocks : List Block) (chunks : List DChunk) (offset : Nat) (out : List DChunk),
      processContentGo hs ts blocks chunks offset = .ok out →
      ∃ gs : List (List DChunk),
        out = chunks ++ gs.flatten ∧
        gs.length = blocks.length ∧
        gs.flatten.map DChunk.chunk_index
          = (List.range' chunks.length gs.flatten.length).map Nat.repr ∧
        ∀ (i : Nat) (g : List DChunk) (b : Block), gs[i]? = some g → blocks[i]? = some b →
          (b.type = BlockType.table →
            ∃ ch : DChunk, g = [ch] ∧ ch.ctype = "table" ∧ ch.content = b.content ∧
              ch.is_chart = true) ∧
          (b.type = BlockType.text → ∀ ch ∈ g, ch.ctype = "text") := by
  intro blocks
  induction blocks with
  | nil =>
    intro chunks offset out h
    have hout : out = chunks := by
      simp only [processContentGo] at h
      cases h
      rfl
    refine ⟨[], by simp [hout], rfl, by simp, ?_⟩
    intro i g b hg hb
    simp at hg
  | cons b rest ih =>
    intro chunks offset out h
    obtain ⟨ty, bc⟩ := b
    cases ty with
    | table =>
      simp only [processContentGo] at h
      obtain ⟨gs, hg1, hg2, hg3, hg4⟩ := ih _ _ _ h
      rw [List.length_append] at hg3
      refine ⟨[(⟨"table", bc, tableTitleOf bc, offset, true,
            Nat.repr chunks.length, "", "", ""⟩ : DChunk)] :: gs, ?_, by simp [hg2], ?_, ?_⟩
      · rw [hg1, List.flatten_cons, List.append_assoc]
      · rw [List.flatten_cons]
        exact idx_merge (by simp [List.range'_one]) (by simpa using hg3)
      · intro i g bb hig hib
        cases i with
        | zero =>
          rw [List.getElem?_cons_zero] at hig hib
          cases hig
          cases hib
          constructor
          · intro _
            exact ⟨_, rfl, rfl, rfl, rfl⟩
          · intro hbt
            simp at hbt
        | succ n =>
          rw [List.getElem?_cons_succ] at hig hib
          exact hg4 n g bb hig hib
    | text =>
      simp only [processContentGo] at h
      cases hhs : hs bc with
      | error e =>
        rw [hhs] at h
        simp at h
      | ok docs =>
        rw [hhs] at h
        obtain ⟨news, hp1, hp2, hp3⟩ := processDocs_fst ts docs chunks offset
        obtain ⟨gs, hg1, hg2, hg3, hg4⟩ := ih _ _ _ h
        rw [hp1] at hg1
        rw [hp1, List.length_append] at hg3
        refine ⟨news :: gs, ?_, by simp [hg2], ?_, ?_⟩
        · rw [hg1, List.flatten_cons, List.append_assoc]
        · rw [List.flatten_cons]
          exact idx_merge hp2 (by simpa using hg3)
        · intro i g bb hig hib
          cases i with
          | zero =>
            rw [List.getElem?_cons_zero] at hig hib
            cases hig
            cases hib
            constructor
            · intro hbt
              simp at hbt
            · intro _
              exact hp3
          | succ n =>
            rw [List.getElem?_cons_succ] at hig hib
            exact hg4 n g bb hig hib

/-- C10 counterexample: `parse_pdf` reuses `chart-{idx}` per page, so a
two-page document with one image per page is assigned the
`paragraph_or_chart_index` values `["p1", "chart-0", "p2", "chart-0"]`,
which are not unique within the document. -/
theorem parse_pdf_indexes_not_unique :
    parsePdfIndexes [⟨1, "a".data, 1⟩, ⟨2, "b".data, 1⟩]
      = ["p1", "chart-0", "p2", "chart-0"] ∧
    ¬ (parsePdfIndexes [⟨1, "a".data, 1⟩, ⟨2, "b".data, 1⟩]).Nodup := by
  constructor
  · rfl
  · decide

/-- C10 (amended): within `_process_content` the `chunk_index` values are
the decimal numerals 0, 1, 2, … in order — unique and monotonically
increasing over the document — and the chunk list is the concatenation of
per-block groups in original block order (TABLE and TEXT chunks
interleaved in document order, a TABLE block contributing exactly its one
chunk); `parse_pdf`'s `paragraph_or_chart_index` values, by contrast, may
repeat across pages. -/
theorem process_content_indexes_monotone (hs : List Char → Except PyErr (List HDoc))
    (ts : List Char → List (List Char)) (blocks : List Block) (out : List DChunk)
    (h : processContentGo hs ts blocks [] 0 = .ok out) :
    out.map DChunk.chunk_index = (List.range out.length).map Nat.repr ∧
    (∃ gs : List (List DChunk),
      out = gs.flatten ∧ gs.length = blocks.length ∧
      ∀ (i : Nat) (g : List DChunk) (b : Block), gs[i]? = some g → blocks[i]? = some b →
        (b.type = BlockType.table →
          ∃ ch : DChunk, g = [ch] ∧ ch.ctype = "table" ∧ ch.content = b.content ∧
            ch.is_chart = true) ∧
        (b.type = BlockType.text → ∀ ch ∈ g, ch.ctype = "text")) ∧
    (∀ content : List Char, processContent hs ts content
      = processContentGo hs ts (splitIntoBlocks content) [] 0) := by
  obtain ⟨gs, hg1, hg2, hg3, hg4⟩ := processContentGo_spec hs ts blocks [] 0 out h
  have hout : out = gs.flatten := by simpa using hg1
  refine ⟨?_, ⟨gs, hout, hg2, hg4⟩, fun content => rfl⟩
  rw [hout, List.range_eq_range']
  simpa using hg3

/-- Witness for C10 (amended): on a TABLE block followed by a TEXT block
the chunk indexes come out as `["0", "1"]`. -/
theorem process_content_indexes_monotone_witness :
    c10out.map DChunk.chunk_index = (List.range c10out.length).map Nat.repr :=
  (process_content_indexes_monotone c10hs c10ts c10blocks c10out (by decide)).1

end RagConsole
